import Mathlib

/-!
Verification of the CSearch core (src/Sources/CSearch/CSearch.c) against its
specification.  The byte buffer is modelled as a `List Nat` of bytes; raw
pointer reads become `List.getD` reads (an out-of-range read yields the
default byte 0, and is tracked separately by the access instrumentation
below).  `qsort_r` is modelled by `List.insertionSort`, a comparison sort
driven by the same comparator (`compar a b ≤ 0` puts `a` before `b`, the
`qsort` convention).  The scan's `results_buffer` plus returned
`match_count` are modelled by the returned list of indices: the list's
elements are the first `match_count` slots and its length is the count.
-/

namespace CSearch

/-- Read one byte of the buffer; an out-of-range read yields 0. -/
def readByte (data : List Nat) (i : Nat) : Nat := data.getD i 0

/-- Read `len` consecutive bytes starting at `off`. -/
def readBytes (data : List Nat) (off len : Nat) : List Nat :=
  (List.range len).map fun k => readByte data (off + k)

/-- Read a little-endian `uint32_t` at byte offset `off`. -/
def readU32 (data : List Nat) (off : Nat) : Nat :=
  (readByte data off + 256 * readByte data (off + 1) +
    256 ^ 2 * readByte data (off + 2) + 256 ^ 3 * readByte data (off + 3)) % 2 ^ 32

/-- Read a little-endian `uint64_t` at byte offset `off`. -/
def readU64 (data : List Nat) (off : Nat) : Nat :=
  (readU32 data off + 2 ^ 32 * readU32 data (off + 4)) % 2 ^ 64

/-- Read a little-endian `int64_t` (twos complement) at byte offset `off`. -/
def readI64 (data : List Nat) (off : Nat) : Int :=
  let u := readU64 data off
  if u < 2 ^ 63 then (u : Int) else (u : Int) - 2 ^ 64

/-- Semantic value of an IEEE-754 binary64 datum: NaN, a signed infinity
(`true` = negative), or a finite rational. The two zeroes both decode to
`fin 0`, matching the C comparison semantics where `-0.0 == 0.0`. -/
inductive F64 where
  | nan : F64
  | sinf : Bool → F64
  | fin : ℚ → F64
deriving DecidableEq

/-- Decode a 64-bit pattern (as produced by `readU64`) as an IEEE-754
binary64 value. -/
def decodeF64 (bits : Nat) : F64 :=
  let s : Nat := bits / 2 ^ 63 % 2
  let e : Nat := bits / 2 ^ 52 % 2 ^ 11
  let m : Nat := bits % 2 ^ 52
  if e = 2047 then
    if m = 0 then .sinf (s == 1) else .nan
  else
    let mag : ℚ :=
      if e = 0 then (m : ℚ) * (2 : ℚ) ^ (-(1074 : Int))
      else ((2 ^ 52 + m : Nat) : ℚ) * (2 : ℚ) ^ ((e : Int) - 1075)
    .fin (if s == 1 then -mag else mag)

/-- C `<` on doubles: false whenever either side is NaN. -/
def f64lt : F64 → F64 → Bool
  | .nan, _ => false
  | _, .nan => false
  | .sinf a, .sinf b => a && !b
  | .sinf a, .fin _ => a
  | .fin _, .sinf b => !b
  | .fin x, .fin y => decide (x < y)

/-- C `==` on doubles: false whenever either side is NaN. -/
def f64eq : F64 → F64 → Bool
  | .sinf a, .sinf b => a == b
  | .fin x, .fin y => decide (x = y)
  | _, _ => false

/-- Numeric `≤` on doubles (`<` or `==`); a linear order away from NaN. -/
def f64le (x y : F64) : Bool := f64lt x y || f64eq x y

/-- Byte offset of record `i` (`items_start + i * item_record_size` with
`items_start = data_ptr + item_base_offset`). -/
def itemOff (base stride i : Nat) : Nat := base + i * stride

/-- Read the string field whose (offset, length) pair sits at record
offsets `oo`/`lo`: the record view's `stringField`. -/
def stringFieldAt (data : List Nat) (base stride oo lo i : Nat) : List Nat :=
  let p := itemOff base stride i
  readBytes data (readU32 data (p + oo)) (readU32 data (p + lo))

/-- Display-name field (record offsets 20/24). -/
def nameBytes (data : List Nat) (base stride i : Nat) : List Nat :=
  stringFieldAt data base stride 20 24 i

/-- Path field (record offsets 28/32). -/
def pathBytes (data : List Nat) (base stride i : Nat) : List Nat :=
  stringFieldAt data base stride 28 32 i

/-- Lowercased-name field (record offsets 36/40). -/
def lowerNameBytes (data : List Nat) (base stride i : Nat) : List Nat :=
  stringFieldAt data base stride 36 40 i

/-- Size field: `int64_t` at record offset 0. -/
def sizeVal (data : List Nat) (base stride i : Nat) : Int :=
  readI64 data (itemOff base stride i)

/-- Modified-time field: binary64 at record offset 8. -/
def dateVal (data : List Nat) (base stride i : Nat) : F64 :=
  decodeF64 (readU64 data (itemOff base stride i + 8))

/-- Does `needle` occur at the very start of `hay`? (The inner loop of
`memmem`.) -/
def hasPrefixBytes : List Nat → List Nat → Bool
  | _, [] => true
  | [], _ :: _ => false
  | a :: hs, b :: ns => a == b && hasPrefixBytes hs ns

/-- `memmem(hay, |hay|, needle, |needle|) != NULL`: does `needle` occur
contiguously inside `hay`?  An empty needle always matches. -/
def containsSeq (needle : List Nat) : List Nat → Bool
  | [] => hasPrefixBytes [] needle
  | a :: t => hasPrefixBytes (a :: t) needle || containsSeq needle t

/-- One iteration of the scan loop: append index `i` to the results if the
lowercased-name field contains the query. -/
def scanStep (data : List Nat) (base stride : Nat) (query : List Nat)
    (acc : List Nat) (i : Nat) : List Nat :=
  if containsSeq query (lowerNameBytes data base stride i) then acc ++ [i] else acc

/-- `perform_search_scan`: loop `i` over `[start_index, end_index)`,
appending every matching index.  The returned list holds the contents of
the first `match_count` slots of `results_buffer`; `match_count` is its
length. -/
def perform_search_scan (data : List Nat) (base stride start_index end_index : Nat)
    (query : List Nat) : List Nat :=
  (List.range' start_index (end_index - start_index)).foldl
    (scanStep data base stride query) []

/-- Shared body of `compare_indices_name` and `compare_indices_path`:
`memcmp` over the common length, then the shorter string first, with the
sign flipped when descending. -/
def cmpBytes : List Nat → List Nat → Int
  | a :: as, b :: bs =>
    if a < b then -1 else if b < a then 1 else cmpBytes as bs
  | _, _ => 0

/-- String comparator reading the (offset, length) pair at record offsets
`oo`/`lo` for both indices — the common code of `compare_indices_name`
(20/24) and `compare_indices_path` (28/32). -/
def compareStringField (data : List Nat) (base stride oo lo : Nat) (ascending : Bool)
    (a b : Nat) : Int :=
  let pa := itemOff base stride a
  let pb := itemOff base stride b
  let lenA := readU32 data (pa + lo)
  let lenB := readU32 data (pb + lo)
  let minLen := if lenA < lenB then lenA else lenB
  let c := cmpBytes (readBytes data (readU32 data (pa + oo)) minLen)
    (readBytes data (readU32 data (pb + oo)) minLen)
  let c2 := if c = 0 then (if lenA < lenB then -1 else if lenB < lenA then 1 else 0) else c
  if ascending then c2 else -c2

/-- `compare_indices_name`. -/
def compare_indices_name (data : List Nat) (base stride : Nat) (ascending : Bool)
    (a b : Nat) : Int :=
  compareStringField data base stride 20 24 ascending a b

/-- `compare_indices_path`. -/
def compare_indices_path (data : List Nat) (base stride : Nat) (ascending : Bool)
    (a b : Nat) : Int :=
  compareStringField data base stride 28 32 ascending a b

/-- `compare_indices_size`. -/
def compare_indices_size (data : List Nat) (base stride : Nat) (ascending : Bool)
    (a b : Nat) : Int :=
  let va := readI64 data (itemOff base stride a)
  let vb := readI64 data (itemOff base stride b)
  if va < vb then (if ascending then -1 else 1)
  else if vb < va then (if ascending then 1 else -1)
  else 0

/-- `compare_indices_date`. -/
def compare_indices_date (data : List Nat) (base stride : Nat) (ascending : Bool)
    (a b : Nat) : Int :=
  let va := decodeF64 (readU64 data (itemOff base stride a + 8))
  let vb := decodeF64 (readU64 data (itemOff base stride b + 8))
  if f64lt va vb then (if ascending then -1 else 1)
  else if f64lt vb va then (if ascending then 1 else -1)
  else 0

/-- The `switch (key)` of `perform_index_sort`: `SORT_KEY_NAME = 0`,
`SORT_KEY_PATH = 1`, `SORT_KEY_SIZE = 2`, `SORT_KEY_DATE = 3`; any other
value leaves `compar = NULL`. -/
def selectComparator (data : List Nat) (base stride : Nat) (ascending : Bool) :
    Nat → Option (Nat → Nat → Int)
  | 0 => some (compare_indices_name data base stride ascending)
  | 1 => some (compare_indices_path data base stride ascending)
  | 2 => some (compare_indices_size data base stride ascending)
  | 3 => some (compare_indices_date data base stride ascending)
  | _ => none

/-- `perform_index_sort`: select a comparator by key and sort the index
array with it (`qsort_r` modelled as a comparison sort); with no
comparator selected the array is left untouched.  The C `count` argument
is the length of `indices`. -/
def perform_index_sort (indices : List Nat) (data : List Nat) (base stride key : Nat)
    (ascending : Bool) : List Nat :=
  match selectComparator data base stride ascending key with
  | some compar => List.insertionSort (fun a b => compar a b ≤ 0) indices
  | none => indices

/-- The per-record test of `perform_path_lookup`: length pre-check, then
`memcmp` over `target_len` bytes. -/
def pathMatches (data : List Nat) (base stride : Nat) (target : List Nat) (i : Nat) : Bool :=
  let p := itemOff base stride i
  readU32 data (p + 32) == target.length &&
    readBytes data (readU32 data (p + 28)) target.length == target

/-- The lookup loop: try record `i`, then `remaining - 1` further records;
return the first match, else -1. -/
def lookupLoop (data : List Nat) (base stride : Nat) (target : List Nat) :
    Nat → Nat → Int
  | _, 0 => -1
  | i, remaining + 1 =>
    if pathMatches data base stride target i then (i : Int)
    else lookupLoop data base stride target (i + 1) remaining

/-- `perform_path_lookup`: linear scan of records `0, …, count - 1` for an
exact path match; -1 when none matches. -/
def perform_path_lookup (data : List Nat) (base stride count : Nat)
    (target : List Nat) : Int :=
  lookupLoop data base stride target 0 count

/-- Error taxonomy of the spec's checked record view. -/
inductive ScanError where
  | outOfBounds
deriving DecidableEq

/-- Modelled from the spec: the bounds-checked scan the spec mandates for
reimplementations (the C original under src/ performs no such check).  A
record whose computed span (stride below 44, record bytes past the end) or
referenced lowercased-name string span leaves the buffer makes the whole
call fail with `OutOfBounds`; otherwise the result is the plain scan. -/
def scanChecked (data : List Nat) (base stride start_index end_index : Nat)
    (query : List Nat) : Except ScanError (List Nat) :=
  if (List.range' start_index (end_index - start_index)).all (fun i =>
      let p := itemOff base stride i
      decide (44 ≤ stride) && decide (p + 44 ≤ data.length) &&
        decide (readU32 data (p + 36) + readU32 data (p + 40) ≤ data.length))
  then .ok (perform_search_scan data base stride start_index end_index query)
  else .error .outOfBounds

/-- Instrumentation: does the C scan dereference any byte address outside
the buffer?  The scan reads record bytes `p + 36 … p + 43` and, when the
lowercased-name length is nonzero, the haystack span handed to `memmem`. -/
def scanAccessOOB (data : List Nat) (base stride start_index end_index : Nat) : Bool :=
  (List.range' start_index (end_index - start_index)).any fun i =>
    let p := itemOff base stride i
    decide (data.length < p + 44) ||
      (decide (readU32 data (p + 40) ≠ 0) &&
        decide (data.length < readU32 data (p + 36) + readU32 data (p + 40)))

/-- Little-endian encoding helpers for building concrete test buffers. -/
def u32le (n : Nat) : List Nat :=
  [n % 256, n / 256 % 256, n / 256 ^ 2 % 256, n / 256 ^ 3 % 256]

/-- Little-endian 64-bit encoding. -/
def u64le (n : Nat) : List Nat := u32le (n % 2 ^ 32) ++ u32le (n / 2 ^ 32)

/-- One 44-byte record: size, modified = 0.0, 4 padding bytes, then the
three (offset, length) string references. -/
def recordBytes (sz nOff nLen pOff pLen lOff lLen : Nat) : List Nat :=
  u64le sz ++ u64le 0 ++ u32le 0 ++ u32le nOff ++ u32le nLen ++
    u32le pOff ++ u32le pLen ++ u32le lOff ++ u32le lLen

/-- The spec's three-record example: (name, path, lower) =
("Beta", "/b", "beta"), ("alpha", "/a", "alpha"), ("Gamma", "/g", "gamma"),
sizes 300 / 100 / 200; records at base 0, stride 44, strings from 132. -/
def exBuf : List Nat :=
  recordBytes 300 132 4 136 2 138 4 ++
  recordBytes 100 142 5 147 2 149 5 ++
  recordBytes 200 154 5 159 2 161 5 ++
  [66, 101, 116, 97] ++ [47, 98] ++ [98, 101, 116, 97] ++
  [97, 108, 112, 104, 97] ++ [47, 97] ++ [97, 108, 112, 104, 97] ++
  [71, 97, 109, 109, 97] ++ [47, 103] ++ [103, 97, 109, 109, 97]

/-- A malformed buffer: one 44-byte record whose lowercased-name reference
(offset 1000, length 5) points far outside the 44-byte buffer. -/
def badBuf : List Nat := recordBytes 0 0 0 0 0 1000 5

/-- A two-record buffer whose records have equal size fields (both 100)
but distinct names ("b" / "a"), for exercising tied sort keys. -/
def exEqBuf : List Nat :=
  recordBytes 100 88 1 89 2 91 1 ++
  recordBytes 100 92 1 93 2 95 1 ++
  [98] ++ [47, 98] ++ [98] ++ [97] ++ [47, 97] ++ [97]

/-- Structural three-way lexicographic comparison on byte strings: the
value of the comparator's memcmp-plus-length-tie-break computation. -/
def lexCmp : List Nat → List Nat → Int
  | [], [] => 0
  | [], _ :: _ => -1
  | _ :: _, [] => 1
  | a :: as, b :: bs =>
    if a < b then -1 else if b < a then 1 else lexCmp as bs

/-- The memcmp-over-common-length-then-length-tie-break computation, as a
pure function of the two full byte strings. -/
def tieCmp (x y : List Nat) : Int :=
  let m := min x.length y.length
  let c := cmpBytes (x.take m) (y.take m)
  if c = 0 then (if x.length < y.length then -1 else if y.length < x.length then 1 else 0)
  else c

/-- The spec's string order: byte-wise lexicographic with the shorter
string first on an equal common prefix (a proper prefix sorts first). -/
def bytesLE (x y : List Nat) : Prop := List.Lex (· < ·) x y ∨ x = y

/-- The spec's per-key order on record indices: raw-name bytes for Name,
path bytes for Path, signed 64-bit numeric for Size, float numeric for
Date; any undefined key imposes no constraint. -/
def keyLE (data : List Nat) (base stride : Nat) : Nat → Nat → Nat → Prop
  | 0, a, b => bytesLE (nameBytes data base stride a) (nameBytes data base stride b)
  | 1, a, b => bytesLE (pathBytes data base stride a) (pathBytes data base stride b)
  | 2, a, b => sizeVal data base stride a ≤ sizeVal data base stride b
  | 3, a, b => f64le (dateVal data base stride a) (dateVal data base stride b) = true
  | _ + 4, _, _ => True

/-- The "already sorted for this key and direction" predicate: the selected
comparator does not order the pair the other way (vacuous when no
comparator is selected). -/
def sortLeB (data : List Nat) (base stride key : Nat) (ascending : Bool) (a b : Nat) : Bool :=
  match selectComparator data base stride ascending key with
  | some compar => decide (compar a b ≤ 0)
  | none => true

/-- Strict version of `sortLeB`: the selected comparator orders the pair
strictly (no tie), vacuous when no comparator is selected. -/
def sortLtB (data : List Nat) (base stride key : Nat) (ascending : Bool) (a b : Nat) : Bool :=
  match selectComparator data base stride ascending key with
  | some compar => decide (compar a b < 0)
  | none => true

/-- Modelled from the spec: `qsort_r` (libc code absent from src/) is
guaranteed only to produce a comparator-sorted permutation and is unstable
for equal keys ("stability across equal keys is NOT guaranteed").  This is
one conforming implementation: an insertion sort that inserts behind
already-placed tied elements, hence reverses the relative order of ties. -/
def antiStableInsert (c : Nat → Nat → Int) (x : Nat) : List Nat → List Nat
  | [] => [x]
  | y :: ys => if c x y < 0 then x :: y :: ys else y :: antiStableInsert c x ys

/-- The tie-reversing conforming sort built from `antiStableInsert`. -/
def antiStableSort (c : Nat → Nat → Int) : List Nat → List Nat
  | [] => []
  | x :: xs => antiStableInsert c x (antiStableSort c xs)

/-! Basic lemmas about the byte-level reads and the scan loop. -/

theorem readBytes_length (data : List Nat) (off len : Nat) :
    (readBytes data off len).length = len := by
  simp [readBytes]

theorem scanStep_foldl (data : List Nat) (base stride : Nat) (q : List Nat) :
    ∀ (l acc : List Nat),
      l.foldl (scanStep data base stride q) acc =
        acc ++ l.filter (fun i => containsSeq q (lowerNameBytes data base stride i))
  | [], acc => by simp
  | x :: t, acc => by
    rw [List.foldl_cons, List.filter_cons, scanStep_foldl data base stride q t]
    unfold scanStep
    cases h : containsSeq q (lowerNameBytes data base stride x) <;> simp [h]

theorem scan_eq_filter (data : List Nat) (base stride s e : Nat) (q : List Nat) :
    perform_search_scan data base stride s e q =
      (List.range' s (e - s)).filter
        (fun i => containsSeq q (lowerNameBytes data base stride i)) := by
  unfold perform_search_scan
  rw [scanStep_foldl]
  simp

theorem hasPrefixBytes_iff : ∀ hay needle : List Nat,
    hasPrefixBytes hay needle = true ↔ needle <+: hay
  | _, [] => by simp [hasPrefixBytes]
  | [], _ :: _ => by simp [hasPrefixBytes]
  | a :: hs, b :: ns => by
    rw [hasPrefixBytes, Bool.and_eq_true, beq_iff_eq, hasPrefixBytes_iff hs ns,
      List.cons_prefix_cons]
    constructor
    · rintro ⟨h1, h2⟩
      exact ⟨h1.symm, h2⟩
    · rintro ⟨h1, h2⟩
      exact ⟨h1.symm, h2⟩

theorem containsSeq_iff : ∀ needle hay : List Nat,
    containsSeq needle hay = true ↔ needle <:+: hay
  | needle, [] => by
    rw [containsSeq, hasPrefixBytes_iff, List.prefix_nil, List.infix_nil]
  | needle, a :: t => by
    rw [containsSeq, Bool.or_eq_true, hasPrefixBytes_iff, containsSeq_iff needle t,
      List.infix_cons_iff]

theorem containsSeq_nil : ∀ hay : List Nat, containsSeq [] hay = true
  | [] => rfl
  | _ :: _ => by simp [containsSeq, hasPrefixBytes]

/-- C1: `perform_search_scan` returns exactly the indices in
`[startIndex, endIndex)` whose lowercased-name field (record offsets
36/40) contains the query as a contiguous subsequence, in strictly
ascending order, and never an index outside the range. -/
theorem scan_exact (data : List Nat) (base stride s e : Nat) (q : List Nat) :
    (∀ i, i ∈ perform_search_scan data base stride s e q ↔
      s ≤ i ∧ i < e ∧ q <:+: lowerNameBytes data base stride i) ∧
    (perform_search_scan data base stride s e q).Pairwise (· < ·) := by
  constructor
  · intro i
    rw [scan_eq_filter, List.mem_filter, List.mem_range'_1, containsSeq_iff]
    constructor
    · rintro ⟨⟨h1, h2⟩, h3⟩
      exact ⟨h1, by omega, h3⟩
    · rintro ⟨h1, h2, h3⟩
      exact ⟨⟨h1, by omega⟩, h3⟩
  · rw [scan_eq_filter]
    exact (List.pairwise_lt_range' s (e - s)).sublist (List.filter_sublist _)

/-- C5: an empty query matches every record in the range, so the scan
returns `startIndex, …, endIndex - 1` and the match count is the range
size (also when a lowercased-name field has length 0). -/
theorem scan_empty_query (data : List Nat) (base stride s e : Nat) :
    perform_search_scan data base stride s e [] = List.range' s (e - s) ∧
    (perform_search_scan data base stride s e []).length = e - s := by
  have h : perform_search_scan data base stride s e [] = List.range' s (e - s) := by
    rw [scan_eq_filter]
    exact List.filter_eq_self.mpr fun a _ => containsSeq_nil _
  exact ⟨h, by rw [h, List.length_range']⟩

/-- C9: the match count is at most the range size, so an output buffer of
capacity `endIndex - startIndex` holds all written slots (in this model
the result list is exactly the written prefix and its length the count). -/
theorem scan_count_le (data : List Nat) (base stride s e : Nat) (q : List Nat) :
    (perform_search_scan data base stride s e q).length ≤ e - s := by
  rw [scan_eq_filter]
  calc (List.filter _ (List.range' s (e - s))).length
      ≤ (List.range' s (e - s)).length := List.length_filter_le _ _
    _ = e - s := List.length_range' ..

/-- C3: for every key and direction, sorting permutes the index array:
same multiset, nothing added or removed. -/
theorem sort_perm (indices data : List Nat) (base stride key : Nat) (ascending : Bool) :
    (perform_index_sort indices data base stride key ascending).Perm indices := by
  rcases hsel : selectComparator data base stride ascending key with _ | c <;>
    simp [perform_index_sort, hsel, List.perm_insertionSort]

/-- C10: a key value outside the four defined `SearchSortKey` values
selects no comparator, and the index array is returned unchanged. -/
theorem sort_invalid_key (indices data : List Nat) (base stride key : Nat)
    (ascending : Bool) (h : 4 ≤ key) :
    perform_index_sort indices data base stride key ascending = indices := by
  obtain ⟨k, rfl⟩ : ∃ k, key = k + 4 := ⟨key - 4, by omega⟩
  rfl

theorem sort_invalid_key_witness :
    4 ≤ 7 ∧ perform_index_sort [2, 0, 1] exBuf 0 44 7 true = [2, 0, 1] :=
  ⟨by decide, sort_invalid_key [2, 0, 1] exBuf 0 44 7 true (by decide)⟩

/-- C7: concrete behavior on the spec's three-record example buffer. -/
theorem example_behavior :
    perform_index_sort [0, 1, 2] exBuf 0 44 0 true = [0, 2, 1] ∧
    perform_index_sort [0, 1, 2] exBuf 0 44 2 true = [1, 2, 0] ∧
    perform_search_scan exBuf 0 44 0 3 [101, 116, 97] = [0] ∧
    perform_path_lookup exBuf 0 44 3 [47, 97] = 1 ∧
    perform_path_lookup exBuf 0 44 3 [47, 122] = -1 := by
  refine ⟨?_, ?_, ?_, ?_, ?_⟩ <;> decide

/-! Lemmas for the path lookup. -/

theorem pathMatches_iff (data : List Nat) (base stride : Nat) (target : List Nat) (i : Nat) :
    pathMatches data base stride target i = true ↔ pathBytes data base stride i = target := by
  simp only [pathMatches, pathBytes, stringFieldAt, itemOff, Bool.and_eq_true, beq_iff_eq]
  constructor
  · rintro ⟨h1, h2⟩
    rw [h1]
    exact h2
  · intro h
    have hlen : readU32 data (base + i * stride + 32) = target.length := by
      have := congrArg List.length h
      rwa [readBytes_length] at this
    rw [hlen] at h ⊢
    exact ⟨rfl, h⟩

theorem lookupLoop_none (data : List Nat) (base stride : Nat) (target : List Nat) :
    ∀ (remaining i : Nat),
      (∀ k, i ≤ k → k < i + remaining → pathMatches data base stride target k = false) →
      lookupLoop data base stride target i remaining = -1
  | 0, i, _ => rfl
  | remaining + 1, i, h => by
    rw [lookupLoop, if_neg (by simp [h i (le_refl i) (by omega)])]
    exact lookupLoop_none data base stride target remaining (i + 1)
      fun k hk1 hk2 => h k (by omega) (by omega)

theorem lookupLoop_found (data : List Nat) (base stride : Nat) (target : List Nat) :
    ∀ (remaining i m : Nat), i ≤ m → m < i + remaining →
      pathMatches data base stride target m = true →
      ∃ j, i ≤ j ∧ j ≤ m ∧ pathMatches data base stride target j = true ∧
        lookupLoop data base stride target i remaining = (j : Int)
  | 0, i, m, h1, h2, _ => absurd h2 (by omega)
  | remaining + 1, i, m, h1, h2, h3 => by
    cases hm : pathMatches data base stride target i with
    | true => exact ⟨i, le_refl i, h1, hm, by rw [lookupLoop, if_pos (by simp [hm])]⟩
    | false =>
      have hne : i ≠ m := fun h => by rw [h, h3] at hm; exact Bool.noConfusion hm
      obtain ⟨j, hj1, hj2, hj3, hj4⟩ :=
        lookupLoop_found data base stride target remaining (i + 1) m (by omega) (by omega) h3
      exact ⟨j, by omega, hj2, hj3, by rw [lookupLoop, if_neg (by simp [hm])]; exact hj4⟩

/-- C4: `perform_path_lookup` returns -1 exactly when no record's path
field equals the target byte-for-byte, and otherwise the smallest matching
index in `[0, count)`. -/
theorem pathLookup_correct (data : List Nat) (base stride count : Nat) (target : List Nat) :
    ((∀ i, i < count → pathBytes data base stride i ≠ target) →
      perform_path_lookup data base stride count target = -1) ∧
    (∀ i, i < count → pathBytes data base stride i = target →
      ∃ j, j ≤ i ∧ j < count ∧ pathBytes data base stride j = target ∧
        perform_path_lookup data base stride count target = (j : Int)) := by
  constructor
  · intro h
    refine lookupLoop_none data base stride target count 0 fun k _ hk => ?_
    have hne : pathMatches data base stride target k ≠ true :=
      fun hm => h k (by omega) ((pathMatches_iff data base stride target k).mp hm)
    simpa using hne
  · intro i hi hmatch
    obtain ⟨j, _, hj2, hj3, hj4⟩ := lookupLoop_found data base stride target count 0 i
      (Nat.zero_le i) (by omega) ((pathMatches_iff data base stride target i).mpr hmatch)
    exact ⟨j, hj2, by omega, (pathMatches_iff data base stride target j).mp hj3, hj4⟩

theorem pathLookup_correct_witness :
    perform_path_lookup exBuf 0 44 3 [47, 122] = -1 :=
  (pathLookup_correct exBuf 0 44 3 [47, 122]).1 (by decide)

/-! Lemmas relating the string comparators to the lexicographic order. -/

theorem readBytes_take (data : List Nat) (off len k : Nat) :
    (readBytes data off len).take k = readBytes data off (min k len) := by
  simp [readBytes, ← List.map_take, List.take_range]

theorem compareStringField_eq (data : List Nat) (base stride oo lo : Nat) (ascending : Bool)
    (a b : Nat) :
    compareStringField data base stride oo lo ascending a b =
      if ascending then
        tieCmp (stringFieldAt data base stride oo lo a) (stringFieldAt data base stride oo lo b)
      else
        -tieCmp (stringFieldAt data base stride oo lo a)
          (stringFieldAt data base stride oo lo b) := by
  have hif : ∀ u v : Nat, (if u < v then u else v) = min u v := by
    intro u v
    split <;> omega
  simp only [compareStringField, tieCmp, stringFieldAt, readBytes_length, hif, readBytes_take]
  rw [Nat.min_eq_left (Nat.min_le_left _ _), Nat.min_eq_left (Nat.min_le_right _ _)]

theorem tieCmp_eq_lexCmp : ∀ x y : List Nat, tieCmp x y = lexCmp x y
  | [], [] => rfl
  | [], _ :: _ => by simp [tieCmp, lexCmp, cmpBytes]
  | _ :: _, [] => by simp [tieCmp, lexCmp, cmpBytes]
  | a :: as, b :: bs => by
    have ih := tieCmp_eq_lexCmp as bs
    simp only [tieCmp, lexCmp, List.length_cons, Nat.succ_min_succ, List.take_succ_cons,
      cmpBytes] at ih ⊢
    rcases Nat.lt_trichotomy a b with h | h | h
    · simp [h]
    · subst h
      rw [if_neg (lt_irrefl a), if_neg (lt_irrefl a), ← ih]
      simp [Nat.succ_lt_succ_iff]
    · simp [h, Nat.lt_asymm h]

theorem lexCmp_trichot : ∀ x y : List Nat, lexCmp x y = -1 ∨ lexCmp x y = 0 ∨ lexCmp x y = 1
  | [], [] => Or.inr (Or.inl rfl)
  | [], _ :: _ => Or.inl rfl
  | _ :: _, [] => Or.inr (Or.inr rfl)
  | a :: as, b :: bs => by
    rcases Nat.lt_trichotomy a b with h | h | h
    · left
      simp [lexCmp, h]
    · subst h
      simpa [lexCmp] using lexCmp_trichot as bs
    · right; right
      simp [lexCmp, h, Nat.lt_asymm h]

theorem lexCmp_eq_zero_iff : ∀ x y : List Nat, lexCmp x y = 0 ↔ x = y
  | [], [] => by simp [lexCmp]
  | [], _ :: _ => by simp [lexCmp]
  | _ :: _, [] => by simp [lexCmp]
  | a :: as, b :: bs => by
    rcases Nat.lt_trichotomy a b with h | h | h
    · simp [lexCmp, h, Nat.ne_of_lt h]
    · subst h
      simp [lexCmp, lexCmp_eq_zero_iff as bs]
    · simp [lexCmp, h, Nat.lt_asymm h, (Nat.ne_of_lt h).symm]

theorem lexCmp_eq_neg_iff : ∀ x y : List Nat, lexCmp x y = -1 ↔ List.Lex (· < ·) x y
  | [], [] => by simp [lexCmp]
  | [], _ :: _ => ⟨fun _ => List.Lex.nil, fun _ => rfl⟩
  | a :: as, [] => by simp [lexCmp]
  | a :: as, b :: bs => by
    rcases Nat.lt_trichotomy a b with h | h | h
    · rw [lexCmp, if_pos h]
      exact ⟨fun _ => List.Lex.rel h, fun _ => rfl⟩
    · subst h
      simp only [lexCmp, lt_irrefl, if_false]
      rw [lexCmp_eq_neg_iff as bs]
      constructor
      · exact fun hl => List.Lex.cons hl
      · intro hl
        cases hl with
        | cons h1 => exact h1
        | rel h1 => exact absurd h1 (lt_irrefl a)
    · simp only [lexCmp, if_neg (Nat.lt_asymm h), if_pos h]
      constructor
      · intro hh
        exact absurd hh (by decide)
      · intro hl
        cases hl with
        | cons h2 => exact absurd h (lt_irrefl a)
        | rel h2 => exact absurd h2 (Nat.lt_asymm h)

theorem lexCmp_swap : ∀ x y : List Nat, lexCmp y x = -lexCmp x y
  | [], [] => rfl
  | [], _ :: _ => rfl
  | _ :: _, [] => rfl
  | a :: as, b :: bs => by
    rcases Nat.lt_trichotomy a b with h | h | h
    · simp [lexCmp, h, Nat.lt_asymm h]
    · subst h
      simp [lexCmp, lexCmp_swap as bs]
    · simp [lexCmp, h, Nat.lt_asymm h]

theorem lexCmp_le_zero_iff (x y : List Nat) : lexCmp x y ≤ 0 ↔ bytesLE x y := by
  unfold bytesLE
  rcases lexCmp_trichot x y with h | h | h
  · rw [h]
    exact ⟨fun _ => Or.inl ((lexCmp_eq_neg_iff x y).mp h), fun _ => by decide⟩
  · rw [h]
    exact ⟨fun _ => Or.inr ((lexCmp_eq_zero_iff x y).mp h), fun _ => le_refl 0⟩
  · rw [h]
    constructor
    · intro hc
      exact absurd hc (by decide)
    · rintro (hl | rfl)
      · exact absurd (((lexCmp_eq_neg_iff x y).mpr hl).symm.trans h) (by decide)
      · exact absurd (((lexCmp_eq_zero_iff x x).mpr rfl).symm.trans h) (by decide)

theorem neg_lexCmp_le_zero_iff (x y : List Nat) : -lexCmp x y ≤ 0 ↔ bytesLE y x := by
  rw [← lexCmp_swap x y]
  exact lexCmp_le_zero_iff y x

theorem bytesLE_trans {x y z : List Nat} (h1 : bytesLE x y) (h2 : bytesLE y z) :
    bytesLE x z := by
  rcases h1 with h1 | rfl
  · rcases h2 with h2 | rfl
    · exact Or.inl (IsTrans.trans x y z h1 h2)
    · exact Or.inl h1
  · exact h2

theorem bytesLE_total (x y : List Nat) : bytesLE x y ∨ bytesLE y x := by
  rcases trichotomous_of (List.Lex ((· < ·) : Nat → Nat → Prop)) x y with h | h | h
  · exact Or.inl (Or.inl h)
  · exact Or.inl (Or.inr h)
  · exact Or.inr (Or.inl h)

/-! Lemmas about the binary64 comparison semantics. -/

theorem f64lt_asymm : ∀ x y : F64, f64lt x y = true → f64lt y x = false
  | .nan, .nan, _ => rfl
  | .nan, .sinf _, _ => rfl
  | .nan, .fin _, _ => rfl
  | .sinf _, .nan, _ => rfl
  | .fin _, .nan, _ => rfl
  | .sinf a, .sinf b, h => by revert h; cases a <;> cases b <;> decide
  | .sinf a, .fin _, h => by rw [show a = true from h]; rfl
  | .fin _, .sinf b, h => by
    have hb : b = false := by simpa [f64lt] using h
    rw [hb]
    rfl
  | .fin p, .fin q, h => by
    have hpq : p < q := by simpa [f64lt] using h
    simpa [f64lt] using not_lt.mpr hpq.le

theorem f64lt_total_false (x y : F64) : f64lt x y = false ∨ f64lt y x = false := by
  cases h : f64lt x y
  · exact Or.inl rfl
  · exact Or.inr (f64lt_asymm x y h)

theorem f64_nlt_iff_le : ∀ x y : F64, x ≠ F64.nan → y ≠ F64.nan →
    (f64lt y x = false ↔ f64le x y = true)
  | .nan, _, hx, _ => absurd rfl hx
  | _, .nan, _, hy => absurd rfl hy
  | .sinf a, .sinf b, _, _ => by cases a <;> cases b <;> decide
  | .sinf a, .fin _, _, _ => by cases a <;> simp [f64lt, f64le, f64eq]
  | .fin _, .sinf b, _, _ => by cases b <;> simp [f64lt, f64le, f64eq]
  | .fin p, .fin q, _, _ => by
    simp only [f64lt, f64le, f64eq, Bool.or_eq_true, decide_eq_true_iff,
      decide_eq_false_iff_not]
    constructor
    · intro h
      rcases lt_or_eq_of_le (not_lt.mp h) with h1 | h1
      · exact Or.inl h1
      · exact Or.inr h1
    · rintro (h | h)
      · exact not_lt.mpr h.le
      · exact not_lt.mpr h.le

theorem f64le_trans : ∀ x y z : F64, x ≠ F64.nan → y ≠ F64.nan → z ≠ F64.nan →
    f64le x y = true → f64le y z = true → f64le x z = true
  | .nan, _, _, hx, _, _, _, _ => absurd rfl hx
  | _, .nan, _, _, hy, _, _, _ => absurd rfl hy
  | _, _, .nan, _, _, hz, _, _ => absurd rfl hz
  | .sinf a, .sinf b, .sinf c, _, _, _, h1, h2 => by
    revert h1 h2
    cases a <;> cases b <;> cases c <;> decide
  | .sinf a, .sinf b, .fin _, _, _, _, h1, h2 => by
    revert h1 h2
    cases a <;> cases b <;> simp [f64le, f64lt, f64eq]
  | .sinf a, .fin _, .sinf c, _, _, _, h1, h2 => by
    revert h1 h2
    cases a <;> cases c <;> simp [f64le, f64lt, f64eq]
  | .fin _, .sinf b, .sinf c, _, _, _, h1, h2 => by
    revert h1 h2
    cases b <;> cases c <;> simp [f64le, f64lt, f64eq]
  | .sinf a, .fin _, .fin _, _, _, _, h1, h2 => by
    revert h1 h2
    cases a <;> simp [f64le, f64lt, f64eq]
  | .fin _, .sinf b, .fin _, _, _, _, h1, h2 => by
    revert h1 h2
    cases b <;> simp [f64le, f64lt, f64eq]
  | .fin _, .fin _, .sinf c, _, _, _, h1, h2 => by
    revert h1 h2
    cases c <;> simp [f64le, f64lt, f64eq]
  | .fin p, .fin q, .fin r, _, _, _, h1, h2 => by
    revert h1 h2
    simp only [f64le, f64lt, f64eq, Bool.or_eq_true, decide_eq_true_iff]
    rintro (h1 | h1) (h2 | h2)
    · exact Or.inl (h1.trans h2)
    · exact Or.inl (h2 ▸ h1)
    · exact Or.inl (h1 ▸ h2)
    · exact Or.inr (h1.trans h2)

/-! Comparator-to-key-order glue lemmas. -/

theorem stringField_le_iff (data : List Nat) (base stride oo lo : Nat) (ascending : Bool)
    (a b : Nat) :
    (compareStringField data base stride oo lo ascending a b ≤ 0) ↔
      (if ascending then
        bytesLE (stringFieldAt data base stride oo lo a) (stringFieldAt data base stride oo lo b)
      else
        bytesLE (stringFieldAt data base stride oo lo b)
          (stringFieldAt data base stride oo lo a)) := by
  rw [compareStringField_eq]
  cases ascending
  · rw [if_neg (by simp), if_neg (by simp), tieCmp_eq_lexCmp, neg_lexCmp_le_zero_iff]
  · rw [if_pos rfl, if_pos rfl, tieCmp_eq_lexCmp, lexCmp_le_zero_iff]

theorem compare_size_le (data : List Nat) (base stride : Nat) (a b : Nat) :
    (compare_indices_size data base stride true a b ≤ 0 ↔
      sizeVal data base stride a ≤ sizeVal data base stride b) ∧
    (compare_indices_size data base stride false a b ≤ 0 ↔
      sizeVal data base stride b ≤ sizeVal data base stride a) := by
  simp only [compare_indices_size, sizeVal]
  refine ⟨?_, ?_⟩ <;>
    (split_ifs <;> first
      | omega
      | (constructor <;> intro <;> omega)
      | simp_all)

theorem compare_date_le (data : List Nat) (base stride : Nat) (a b : Nat) :
    (compare_indices_date data base stride true a b ≤ 0 ↔
      f64lt (dateVal data base stride b) (dateVal data base stride a) = false) ∧
    (compare_indices_date data base stride false a b ≤ 0 ↔
      f64lt (dateVal data base stride a) (dateVal data base stride b) = false) := by
  unfold compare_indices_date dateVal
  constructor
  · cases hab : f64lt (decodeF64 (readU64 data (itemOff base stride a + 8)))
        (decodeF64 (readU64 data (itemOff base stride b + 8)))
    · rw [if_neg (by simp [hab])]
      cases hba : f64lt (decodeF64 (readU64 data (itemOff base stride b + 8)))
          (decodeF64 (readU64 data (itemOff base stride a + 8)))
      · rw [if_neg (by simp [hba])]
        simp
      · rw [if_pos (by simp [hba])]
        simp [hba]
    · rw [if_pos (by simp [hab])]
      have h2 := f64lt_asymm _ _ hab
      simp [h2]
  · cases hab : f64lt (decodeF64 (readU64 data (itemOff base stride a + 8)))
        (decodeF64 (readU64 data (itemOff base stride b + 8)))
    · rw [if_neg (by simp [hab])]
      cases hba : f64lt (decodeF64 (readU64 data (itemOff base stride b + 8)))
          (decodeF64 (readU64 data (itemOff base stride a + 8)))
      · rw [if_neg (by simp [hba])]
        simp [hab]
      · rw [if_pos (by simp [hba])]
        simp [hab]
    · rw [if_pos (by simp [hab])]
      simp [hab]

/-! The generic sortedness argument for a comparator reflecting an order. -/

theorem sorted_of_comparator (c : Nat → Nat → Int) (le : Nat → Nat → Prop)
    (hiff : ∀ a b, (c a b ≤ 0) ↔ le a b)
    (htot : ∀ a b, le a b ∨ le b a)
    (htrans : ∀ a b d, le a b → le b d → le a d)
    (indices : List Nat) :
    (List.insertionSort (fun a b => c a b ≤ 0) indices).Pairwise le := by
  haveI h1 : IsTotal Nat (fun a b => c a b ≤ 0) := ⟨fun a b => by
    rcases htot a b with h | h
    · exact Or.inl ((hiff a b).mpr h)
    · exact Or.inr ((hiff b a).mpr h)⟩
  haveI h2 : IsTrans Nat (fun a b => c a b ≤ 0) := ⟨fun a b d hab hbd =>
    (hiff a d).mpr (htrans a b d ((hiff a b).mp hab) ((hiff b d).mp hbd))⟩
  exact (List.sorted_insertionSort _ indices).imp fun h => (hiff _ _).mp h

theorem pairwise_of_true {R : Nat → Nat → Prop} (hR : ∀ a b, R a b) :
    ∀ l : List Nat, l.Pairwise R
  | [] => List.Pairwise.nil
  | x :: t => List.Pairwise.cons (fun b _ => hR x b) (pairwise_of_true hR t)

theorem dir_total {P : Nat → Nat → Prop} (hP : ∀ a b : Nat, P a b ∨ P b a) (ascending : Bool) :
    ∀ a b : Nat, (if ascending then P a b else P b a) ∨ (if ascending then P b a else P a b) := by
  intro a b
  cases ascending
  · exact hP b a
  · exact hP a b

theorem dir_trans {P : Nat → Nat → Prop} (hP : ∀ a b d : Nat, P a b → P b d → P a d)
    (ascending : Bool) :
    ∀ a b d : Nat, (if ascending then P a b else P b a) → (if ascending then P b d else P d b) →
      (if ascending then P a d else P d a) := by
  intro a b d
  cases ascending
  · exact fun h1 h2 => hP d b a h2 h1
  · exact fun h1 h2 => hP a b d h1 h2

/-- C2: after sorting with a given key, reading the key field along the
array is non-decreasing under that key's order when ascending (raw-byte
lexicographic with length tie-break for Name/Path, signed 64-bit numeric
for Size, float numeric for Date), and non-increasing when descending;
for Date this assumes no record decodes to a NaN modified time. -/
theorem sort_key_ordered (indices data : List Nat) (base stride key : Nat) (ascending : Bool)
    (hnan : key = 3 → ∀ i : Nat, dateVal data base stride i ≠ F64.nan) :
    (perform_index_sort indices data base stride key ascending).Pairwise
      (fun a b => if ascending then keyLE data base stride key a b
        else keyLE data base stride key b a) := by
  match key with
  | 0 =>
    show (List.insertionSort
        (fun a b => compare_indices_name data base stride ascending a b ≤ 0) indices).Pairwise _
    exact sorted_of_comparator _ _
      (fun a b => stringField_le_iff data base stride 20 24 ascending a b)
      (dir_total (fun a b =>
        bytesLE_total (nameBytes data base stride a) (nameBytes data base stride b)) ascending)
      (dir_trans
        (P := fun a b => bytesLE (stringFieldAt data base stride 20 24 a)
          (stringFieldAt data base stride 20 24 b))
        (fun a b d h1 h2 => bytesLE_trans h1 h2) ascending)
      indices
  | 1 =>
    show (List.insertionSort
        (fun a b => compare_indices_path data base stride ascending a b ≤ 0) indices).Pairwise _
    exact sorted_of_comparator _ _
      (fun a b => stringField_le_iff data base stride 28 32 ascending a b)
      (dir_total (fun a b =>
        bytesLE_total (pathBytes data base stride a) (pathBytes data base stride b)) ascending)
      (dir_trans
        (P := fun a b => bytesLE (stringFieldAt data base stride 28 32 a)
          (stringFieldAt data base stride 28 32 b))
        (fun a b d h1 h2 => bytesLE_trans h1 h2) ascending)
      indices
  | 2 =>
    show (List.insertionSort
        (fun a b => compare_indices_size data base stride ascending a b ≤ 0) indices).Pairwise _
    refine sorted_of_comparator _ _ ?_
      (dir_total (fun a b =>
        le_total (sizeVal data base stride a) (sizeVal data base stride b)) ascending)
      (dir_trans
        (P := fun a b => sizeVal data base stride a ≤ sizeVal data base stride b)
        (fun a b d h1 h2 => le_trans h1 h2) ascending)
      indices
    intro a b
    cases ascending
    · exact (compare_size_le data base stride a b).2
    · exact (compare_size_le data base stride a b).1
  | 3 =>
    have hn := hnan rfl
    show (List.insertionSort
        (fun a b => compare_indices_date data base stride ascending a b ≤ 0) indices).Pairwise _
    refine sorted_of_comparator _ _ ?_
      (dir_total (fun a b => ?_) ascending)
      (dir_trans (fun a b d h1 h2 =>
        f64le_trans (dateVal data base stride a) (dateVal data base stride b)
          (dateVal data base stride d) (hn a) (hn b) (hn d) h1 h2) ascending)
      indices
    · intro a b
      cases ascending
      · exact ((compare_date_le data base stride a b).2).trans
          (f64_nlt_iff_le (dateVal data base stride b) (dateVal data base stride a)
            (hn b) (hn a))
      · exact ((compare_date_le data base stride a b).1).trans
          (f64_nlt_iff_le (dateVal data base stride a) (dateVal data base stride b)
            (hn a) (hn b))
    · rcases f64lt_total_false (dateVal data base stride a) (dateVal data base stride b)
        with h | h
      · exact Or.inr ((f64_nlt_iff_le (dateVal data base stride b)
          (dateVal data base stride a) (hn b) (hn a)).mp h)
      · exact Or.inl ((f64_nlt_iff_le (dateVal data base stride a)
          (dateVal data base stride b) (hn a) (hn b)).mp h)
  | k + 4 =>
    show indices.Pairwise _
    exact pairwise_of_true (fun a b => by cases ascending <;> exact trivial) indices

theorem sort_key_ordered_witness :
    (perform_index_sort [0, 1, 2] exBuf 0 44 2 true).Pairwise
      (fun a b => if true then keyLE exBuf 0 44 2 a b else keyLE exBuf 0 44 2 b a) :=
  sort_key_ordered [0, 1, 2] exBuf 0 44 2 true (fun h => absurd h (by decide))

/-! Comparator antisymmetry, and uniqueness of sorted permutations of a
strictly sorted array — the part of C8 that holds for any conforming
implementation of the sort, stable or not. -/

theorem compareStringField_swap (data : List Nat) (base stride oo lo : Nat)
    (ascending : Bool) (a b : Nat) :
    compareStringField data base stride oo lo ascending b a =
      -compareStringField data base stride oo lo ascending a b := by
  rw [compareStringField_eq, compareStringField_eq]
  cases ascending
  · rw [if_neg (by simp), if_neg (by simp), tieCmp_eq_lexCmp, tieCmp_eq_lexCmp, lexCmp_swap]
  · rw [if_pos rfl, if_pos rfl, tieCmp_eq_lexCmp, tieCmp_eq_lexCmp, lexCmp_swap]

theorem compare_size_swap (data : List Nat) (base stride : Nat) (ascending : Bool)
    (a b : Nat) :
    compare_indices_size data base stride ascending b a =
      -compare_indices_size data base stride ascending a b := by
  simp only [compare_indices_size]
  split_ifs <;> omega

theorem compare_date_swap (data : List Nat) (base stride : Nat) (ascending : Bool)
    (a b : Nat) :
    compare_indices_date data base stride ascending b a =
      -compare_indices_date data base stride ascending a b := by
  simp only [compare_indices_date]
  have hgen : ∀ u v : F64,
      (if f64lt u v then (if ascending then (-1 : Int) else 1)
        else if f64lt v u then (if ascending then 1 else -1) else 0) =
      -(if f64lt v u then (if ascending then (-1 : Int) else 1)
        else if f64lt u v then (if ascending then 1 else -1) else 0) := by
    intro u v
    cases hab : f64lt u v
    · cases hba : f64lt v u <;> cases ascending <;> simp [hab, hba]
    · have hba := f64lt_asymm u v hab
      cases ascending <;> simp [hab, hba]
  exact hgen _ _

theorem selectComparator_swap (data : List Nat) (base stride : Nat) (ascending : Bool)
    (key : Nat) (c : Nat → Nat → Int)
    (hsel : selectComparator data base stride ascending key = some c) :
    ∀ a b, c b a = -c a b := by
  intro a b
  match key, hsel with
  | 0, hsel =>
    rw [← Option.some.inj hsel]
    exact compareStringField_swap data base stride 20 24 ascending a b
  | 1, hsel =>
    rw [← Option.some.inj hsel]
    exact compareStringField_swap data base stride 28 32 ascending a b
  | 2, hsel =>
    rw [← Option.some.inj hsel]
    exact compare_size_swap data base stride ascending a b
  | 3, hsel =>
    rw [← Option.some.inj hsel]
    exact compare_date_swap data base stride ascending a b
  | k + 4, hsel => exact Option.noConfusion hsel

theorem sorted_perm_unique (c : Nat → Nat → Int) (hswap : ∀ a b, c b a = -c a b) :
    ∀ (l₂ l₁ : List Nat), l₁.Perm l₂ → l₂.Pairwise (fun a b => c a b < 0) →
      l₁.Pairwise (fun a b => c a b ≤ 0) → l₁ = l₂
  | [], _, hp, _, _ => hp.eq_nil
  | a :: t₂, l₁, hp, hs₂, hs₁ => by
    cases l₁ with
    | nil => exact absurd hp.symm.eq_nil (by simp)
    | cons b t₁ =>
      have hba : b = a := by
        by_contra hne
        have hbt₂ : b ∈ t₂ := by
          rcases List.mem_cons.mp (hp.subset (List.mem_cons_self b t₁)) with h | h
          · exact absurd h hne
          · exact h
        have hat₁ : a ∈ t₁ := by
          rcases List.mem_cons.mp (hp.symm.subset (List.mem_cons_self a t₂)) with h | h
          · exact absurd h.symm hne
          · exact h
        have hab : c a b < 0 := (List.pairwise_cons.mp hs₂).1 b hbt₂
        have hba' : c b a ≤ 0 := (List.pairwise_cons.mp hs₁).1 a hat₁
        rw [hswap] at hba'
        omega
      subst hba
      rw [sorted_perm_unique c hswap t₂ t₁ hp.cons_inv
        (List.pairwise_cons.mp hs₂).2 (List.pairwise_cons.mp hs₁).2]

/-- C8 counterexample: on a buffer whose two records have the same Size
key, the index array `[0, 1]` is already sorted for (Size, ascending) —
the comparator never orders a pair the other way — yet a sort meeting
everything the program guarantees (a comparator-sorted permutation; the
spec declares `qsort_r` unstable, so tie order is unconstrained) returns
`[1, 0] ≠ [0, 1]`: idempotence fails on equal keys. -/
theorem sort_tie_counterexample :
    [0, 1].Pairwise (fun a b => sortLeB exEqBuf 0 44 2 true a b = true) ∧
    antiStableSort (compare_indices_size exEqBuf 0 44 true) [0, 1] = [1, 0] ∧
    List.Perm [1, 0] [0, 1] ∧
    ([1, 0] : List Nat).Pairwise
      (fun a b => compare_indices_size exEqBuf 0 44 true a b ≤ 0) :=
  ⟨by decide, by decide, List.Perm.swap 0 1 [], by decide⟩

/-- C8 amended: sorting an already-sorted index array leaves it unchanged
whenever the selected comparator orders each pair strictly (no equal
keys); this is forced by the sort's contract alone — any comparator-sorted
permutation of a strictly sorted array equals it, for stable and unstable
sorts alike — and holds vacuously for undefined keys.  With equal keys
only a sorted permutation is guaranteed (tie order unspecified). -/
theorem sort_idempotent_strict (indices data : List Nat) (base stride key : Nat)
    (ascending : Bool)
    (hsorted : indices.Pairwise (fun a b => sortLtB data base stride key ascending a b = true)) :
    perform_index_sort indices data base stride key ascending = indices ∧
    ∀ (c : Nat → Nat → Int) (l : List Nat),
      selectComparator data base stride ascending key = some c →
      l.Perm indices → l.Pairwise (fun a b => c a b ≤ 0) → l = indices := by
  constructor
  · rcases hsel : selectComparator data base stride ascending key with _ | c
    · simp [perform_index_sort, hsel]
    · have hs : indices.Pairwise (fun a b => c a b ≤ 0) := by
        refine hsorted.imp ?_
        intro a b hab
        simp only [sortLtB, hsel, decide_eq_true_iff] at hab
        omega
      simp only [perform_index_sort, hsel]
      exact List.Sorted.insertionSort_eq hs
  · intro c l hsel hperm hpair
    have hstrict : indices.Pairwise (fun a b => c a b < 0) := by
      refine hsorted.imp ?_
      intro a b hab
      simp only [sortLtB, hsel, decide_eq_true_iff] at hab
      exact hab
    exact sorted_perm_unique c (selectComparator_swap data base stride ascending key c hsel)
      indices l hperm hstrict hpair

theorem sort_idempotent_strict_witness :
    [0, 2, 1].Pairwise (fun a b => sortLtB exBuf 0 44 0 true a b = true) ∧
    perform_index_sort [0, 2, 1] exBuf 0 44 0 true = [0, 2, 1] :=
  ⟨by decide, (sort_idempotent_strict [0, 2, 1] exBuf 0 44 0 true (by decide)).1⟩

/-- C6 counterexample: on a malformed buffer (the lowercased-name span
1000..1004 lies far outside the 44-byte buffer) the scan does not fail —
it dereferences out-of-buffer addresses and returns an ordinary result. -/
theorem scan_no_bounds_check_counterexample :
    scanAccessOOB badBuf 0 44 0 1 = true ∧
    perform_search_scan badBuf 0 44 0 1 [1] = [] := by
  exact ⟨by decide, by decide⟩

/-- C6 amended: the original performs no bounds validation — on malformed
input it reads addresses outside the buffer and returns an ordinary count
— while the checked scan the spec mandates for reimplementations
(`scanChecked`) rejects the same input with `OutOfBounds`. -/
theorem scan_no_bounds_check_amended :
    scanAccessOOB badBuf 0 44 0 1 = true ∧
    perform_search_scan badBuf 0 44 0 1 [1] = [] ∧
    scanChecked badBuf 0 44 0 1 [1] = Except.error ScanError.outOfBounds := by
  refine ⟨by decide, by decide, ?_⟩
  rfl

end CSearch
